import Mathlib

/-!
Verification of the unframe test harness (src/args.py, src/logs.py, src/main.py,
src/tests.py) against its natural-language specification.

The development shallowly embeds the Python code of src/tests.py:
pure functions become Lean functions, dictionaries become insertion-ordered
association lists, and code that can raise returns `Except`.  The jinja2
template engine is an external dependency of the repository; the fragment of
it that the repository exercises (literal text interleaved with
double-brace variable interpolations over dotted names, with an
`Undefined`-subclass hook for missing names) is modelled here from the
library's documented semantics, and each modelled library behavior is noted
at its definition.
-/

set_option autoImplicit false

namespace Unframe

/-- Left brace character, written without a brace literal. -/
def lbraceCh : Char := Char.ofNat 123

/-- Right brace character. -/
def rbraceCh : Char := Char.ofNat 125

/-- Single-quote character (used by Python repr of strings). -/
def squoteCh : Char := Char.ofNat 39

/-- The values that appear in rendering contexts: Python `None`, strings,
integers and (insertion-ordered) dictionaries.  These are the YAML scalar
and mapping shapes the repository's spec documents put into contexts. -/
inductive JVal where
  | none : JVal
  | str (s : String) : JVal
  | int (n : Int) : JVal
  | dict (entries : List (String × JVal)) : JVal

mutual

/-- Python `repr` of a `JVal` (string escaping inside `repr` is not modelled;
no value used in this development contains quotes or backslashes). -/
def pyRepr : JVal → String
  | JVal.none => "None"
  | JVal.str s => String.singleton squoteCh ++ s ++ String.singleton squoteCh
  | JVal.int n => toString n
  | JVal.dict es => String.singleton lbraceCh ++ pyReprEntries es ++ String.singleton rbraceCh

/-- Python `repr` of the comma-separated entries of a dict. -/
def pyReprEntries : List (String × JVal) → String
  | [] => ""
  | [(k, v)] => String.singleton squoteCh ++ k ++ String.singleton squoteCh ++ ": " ++ pyRepr v
  | (k, v) :: e :: rest =>
    String.singleton squoteCh ++ k ++ String.singleton squoteCh ++ ": " ++ pyRepr v ++ ", " ++
      pyReprEntries (e :: rest)

end

/-- Python `str` of a `JVal`: identity on strings, decimal on ints,
`repr`-shaped on dicts, `None` on none. -/
def pyStr : JVal → String
  | JVal.none => "None"
  | JVal.str s => s
  | JVal.int n => toString n
  | JVal.dict es => String.singleton lbraceCh ++ pyReprEntries es ++ String.singleton rbraceCh

/-! ## The jinja2 interpolation fragment

`render_strings` (src/tests.py lines 55-63) builds
`Environment(undefined=KeepUndefined)` and renders each string.  The
templates the repository feeds it consist of literal text and
variable interpolations `\x7b\x7b dotted.name \x7d\x7d`.  The model below
parses exactly that fragment; any other jinja construct is outside the model
and parses as a syntax error. -/

/-- Does the character list contain two adjacent left braces (the start
marker of a jinja variable block)? -/
def hasBB : List Char → Bool
  | [] => false
  | [_] => false
  | c :: d :: rest => (c = lbraceCh && d = lbraceCh) || hasBB (d :: rest)

/-- Split a character list at the leftmost adjacent pair of left braces:
returns the prefix before the pair and, when the pair exists, the suffix
after it.  Mirrors the jinja lexer scanning for the next variable block. -/
def splitBB : List Char → List Char × Option (List Char)
  | [] => ([], Option.none)
  | [c] => ([c], Option.none)
  | c :: d :: rest =>
    if c = lbraceCh ∧ d = lbraceCh then ([], some rest)
    else (c :: (splitBB (d :: rest)).1, (splitBB (d :: rest)).2)

/-- Whitespace characters permitted around a jinja expression. -/
def isWsCh (c : Char) : Bool :=
  c = ' ' || c = Char.ofNat 9 || c = Char.ofNat 10 || c = Char.ofNat 13

/-- Drop leading whitespace. -/
def skipWs : List Char → List Char
  | [] => []
  | c :: cs => if isWsCh c then skipWs cs else c :: cs

/-- Characters of a jinja identifier. -/
def isIdentCh (c : Char) : Bool := c.isAlphanum || c = Char.ofNat 95

/-- Permitted first character of a jinja identifier. -/
def isIdentStartCh (c : Char) : Bool := c.isAlpha || c = Char.ofNat 95

/-- Take the longest identifier-character prefix. -/
def takeIdent : List Char → List Char × List Char
  | [] => ([], [])
  | c :: cs =>
    if isIdentCh c then
      let r := takeIdent cs
      (c :: r.1, r.2)
    else ([], c :: cs)

/-- Parse one identifier. -/
def parseIdent (cs : List Char) : Option (String × List Char) :=
  match cs with
  | [] => Option.none
  | c :: _ =>
    if isIdentStartCh c then
      let r := takeIdent cs
      some (String.mk r.1, r.2)
    else Option.none

/-- Parse the `.ident` continuations of a dotted name (fuel-indexed; the
fuel is always at least the remaining length, and every theorem below is
independent of the exact fuel). -/
def parsePathAux : Nat → List Char → List String → Option (List String × List Char)
  | 0, _, _ => Option.none
  | Nat.succ fuel, cs, acc =>
    match cs with
    | [] => some (acc, [])
    | c :: cs2 =>
      if c = '.' then
        match parseIdent cs2 with
        | some p => parsePathAux fuel p.2 (acc ++ [p.1])
        | Option.none => Option.none
      else some (acc, cs)

/-- After an opening double brace: parse `ws dotted.name ws` followed by the
closing double brace, returning the dotted path and the rest of the input. -/
def parseVarClose (cs : List Char) : Option (List String × List Char) :=
  match parseIdent (skipWs cs) with
  | Option.none => Option.none
  | some (id1, rest) =>
    match parsePathAux (rest.length + 1) rest [id1] with
    | Option.none => Option.none
    | some (path, rest2) =>
      match skipWs rest2 with
      | c :: d :: rest3 =>
        if c = rbraceCh ∧ d = rbraceCh then some (path, rest3) else Option.none
      | _ => Option.none

/-- A parsed template node: literal text, or a variable interpolation of a
dotted name (nonempty path). -/
inductive Node where
  | lit (text : List Char) : Node
  | var (path : List String) : Node

/-- Fuel-indexed template parser: alternating literal/variable nodes.
`Option.none` models jinja raising `TemplateSyntaxError`. -/
def parseTemplateF : Nat → List Char → Option (List Node)
  | 0, _ => Option.none
  | Nat.succ fuel, cs =>
    match splitBB cs with
    | (p, Option.none) => some [Node.lit p]
    | (p, some rest) =>
      match parseVarClose rest with
      | Option.none => Option.none
      | some (path, rest2) =>
        match parseTemplateF fuel rest2 with
        | Option.none => Option.none
        | some nodes => some (Node.lit p :: Node.var path :: nodes)

/-- Parse a template.  The fuel `length + 1` is ample: each recursive step
consumes the two-brace opener and at least one identifier character. -/
def parseTemplate (cs : List Char) : Option (List Node) :=
  parseTemplateF (cs.length + 1) cs

/-- Errors the renderer can raise: malformed template syntax, or jinja's
`UndefinedError` carrying the name whose access failed. -/
inductive JErr where
  | templateSyntaxError : JErr
  | undefinedError (name : String) : JErr
deriving DecidableEq

/-- The `_undefined_obj` slot of a jinja `Undefined`: either the `missing`
sentinel (default, used when a top-level name is not in the context) or the
object on which attribute lookup failed. -/
inductive UndefObj where
  | missingSentinel : UndefObj
  | obj (v : JVal) : UndefObj

/-- Result of evaluating (a prefix of) a dotted name: a defined value, or a
jinja `Undefined` instance carrying `(_undefined_obj, _undefined_name)`.
The repository's `KeepUndefined` subclass only overrides printing, so
everything else follows the base `jinja2.runtime.Undefined`. -/
inductive JRes where
  | val (v : JVal) : JRes
  | undef (o : UndefObj) (name : String) : JRes

/-- Resolve a top-level name.  Compiled jinja templates produce
`undefined(name=key)` when the context lacks the key, which leaves
`_undefined_obj` at its default, the `missing` sentinel. -/
def resolveName (ctx : List (String × JVal)) (name : String) : JRes :=
  match List.lookup name ctx with
  | some v => JRes.val v
  | Option.none => JRes.undef UndefObj.missingSentinel name

/-- One attribute step, following `jinja2.Environment.getattr`:
`getattr(obj, name)` (an `AttributeError` falls through; on an `Undefined`
receiver the base class raises `UndefinedError` instead, which propagates),
then `obj[name]` (`TypeError`/`LookupError` fall through), then a fresh
`undefined(obj=obj, name=name)`.  Built-in Python attributes of str/int/dict
(methods such as `items`) are outside the model. -/
def jgetattr (r : JRes) (name : String) : Except JErr JRes :=
  match r with
  | JRes.undef _ n => Except.error (JErr.undefinedError n)
  | JRes.val v =>
    match v with
    | JVal.dict es =>
      match List.lookup name es with
      | some w => Except.ok (JRes.val w)
      | Option.none => Except.ok (JRes.undef (UndefObj.obj v) name)
    | _ => Except.ok (JRes.undef (UndefObj.obj v) name)

/-- Fold attribute steps over the tail of a dotted path. -/
def evalPathAux : JRes → List String → Except JErr JRes
  | r, [] => Except.ok r
  | r, n :: rest =>
    match jgetattr r n with
    | Except.ok r2 => evalPathAux r2 rest
    | Except.error e => Except.error e

/-- Evaluate a dotted path against a context. -/
def evalPath (ctx : List (String × JVal)) : List String → Except JErr JRes
  | [] => Except.error JErr.templateSyntaxError
  | n :: rest => evalPathAux (resolveName ctx n) rest

/-- `KeepUndefined.__str__` (src/tests.py lines 40-51): when
`_undefined_obj` is neither `None` nor an `Undefined` it prints
`str(_undefined_obj) ++ "." ++ _undefined_name` inside double braces — note
that the `missing` sentinel is not `None`, so a top-level miss prints as
`missing.name`; when `_undefined_obj` is `None` it prints the bare name (or
`undefined` when the name is empty/absent).  A nested-`Undefined` object is
unreachable here because attribute access on an `Undefined` raises first. -/
def undefinedStr (o : UndefObj) (name : String) : String :=
  String.singleton lbraceCh ++ String.singleton lbraceCh ++ " " ++
    (match o with
     | UndefObj.missingSentinel => "missing." ++ name
     | UndefObj.obj JVal.none => if name = "" then "undefined" else name
     | UndefObj.obj v => pyStr v ++ "." ++ name) ++
    " " ++ String.singleton rbraceCh ++ String.singleton rbraceCh

/-- Text emitted for an evaluated interpolation: `str(value)` for defined
values, `KeepUndefined.__str__` for undefined ones. -/
def renderRes : JRes → String
  | JRes.val v => pyStr v
  | JRes.undef o n => undefinedStr o n

/-- Render a node list: literals verbatim, interpolations through
`evalPath`/`renderRes`; the first raised error propagates. -/
def renderNodes (ctx : List (String × JVal)) : List Node → Except JErr (List Char)
  | [] => Except.ok []
  | Node.lit p :: rest =>
    match renderNodes ctx rest with
    | Except.ok out => Except.ok (p ++ out)
    | Except.error e => Except.error e
  | Node.var path :: rest =>
    match evalPath ctx path with
    | Except.error e => Except.error e
    | Except.ok r =>
      match renderNodes ctx rest with
      | Except.ok out => Except.ok ((renderRes r).data ++ out)
      | Except.error e => Except.error e

/-- Render one template string against a context
(`env.from_string(s).render(**context)`). -/
def renderString (s : String) (ctx : List (String × JVal)) : Except JErr String :=
  match parseTemplate s.data with
  | Option.none => Except.error JErr.templateSyntaxError
  | some nodes =>
    match renderNodes ctx nodes with
    | Except.ok out => Except.ok (String.mk out)
    | Except.error e => Except.error e

/-- Render each string of a list in order; the first exception propagates
(the Python list comprehension in `render_strings`). -/
def render_list (ctx : List (String × JVal)) : List String → Except JErr (List String)
  | [] => Except.ok []
  | s :: rest =>
    match renderString s ctx with
    | Except.ok r =>
      match render_list ctx rest with
      | Except.ok rs => Except.ok (r :: rs)
      | Except.error e => Except.error e
    | Except.error e => Except.error e

/-- `render_strings` (src/tests.py lines 55-63): `context == None` short
circuits to the input list unchanged; otherwise each string is rendered and
the first exception propagates. -/
def render_strings (strings : List String) (context : Option (List (String × JVal))) :
    Except JErr (List String) :=
  match context with
  | Option.none => Except.ok strings
  | some ctx => render_list ctx strings

/-! ## Python-level errors -/

/-- The Python exceptions the embedded code can raise. -/
inductive PyErr where
  | keyError (key : String) : PyErr
  | typeError (msg : String) : PyErr
  | valueError (msg : String) : PyErr
  | nameError (name : String) : PyErr
  | jinja (e : JErr) : PyErr
  | systemExit (code : Nat) : PyErr
deriving DecidableEq

/-! ## Snippet table -/

/-- Loop body of `convert_snippets` (src/tests.py lines 21-37): insert each
`(name, content)` entry in order into the accumulating dict, raising
`ValueError` when the name is already a key. -/
def convertLoop (result : List (String × String)) :
    List (String × String) → Except PyErr (List (String × String))
  | [] => Except.ok result
  | (name, content) :: rest =>
    if name ∈ result.map Prod.fst then
      Except.error (PyErr.valueError ("Duplicate snippet name: " ++ name))
    else convertLoop (result ++ [(name, content)]) rest

/-- `convert_snippets` (src/tests.py lines 21-37): convert the ordered list
of snippet entries into the dict of dicts under the single key `snippet`. -/
def convert_snippets (raw : List (String × String)) :
    Except PyErr (List (String × List (String × String))) :=
  match convertLoop [] raw with
  | Except.ok result => Except.ok [("snippet", result)]
  | Except.error e => Except.error e

/-- Coercion of the `convert_snippets` result into a rendering context
(`render(**converted)` hands jinja the `snippet` dict as one value). -/
def snippetCtx (table : List (String × List (String × String))) : List (String × JVal) :=
  table.map (fun p => (p.1, JVal.dict (p.2.map (fun q => (q.1, JVal.str q.2)))))

/-! ## Parameter expander -/

/-- `itertools.product` over a list of axes: the cartesian product in
document order, with the last axis varying fastest (the first axis is the
outermost loop, exactly as `itertools.product` iterates). -/
def product {α : Type} : List (List α) → List (List α)
  | [] => [[]]
  | vs :: rest => vs.flatMap (fun x => (product rest).map (fun combo => x :: combo))

/-- `Test.param_permutations` (src/tests.py lines 149-157): the cartesian
product of the parameter value lists, each combination zipped back with the
parameter names into one binding (`dict(zip(keys, x))`). -/
def param_permutations {α : Type} (params : List (String × List α)) :
    List (List (String × α)) :=
  (product (params.map Prod.snd)).map (fun combo => List.zip (params.map Prod.fst) combo)

/-! ## Function compiler -/

/-- A Python object bound in an exec namespace: either a function object
(identified by an opaque tag) or a plain value.  Only callability is
observable in `load_fn`. -/
inductive PyObj where
  | callable (tag : String) : PyObj
  | value (v : JVal) : PyObj

/-- Python `callable`. -/
def isCallable : PyObj → Bool
  | PyObj.callable _ => true
  | PyObj.value _ => false

/-- The effect of `exec(code, ns, ns)` on an empty namespace, abstracted as
a function from source text to the resulting bindings.  Executing arbitrary
Python is outside a shallow embedding; `load_fn` is verified for every
possible exec outcome. -/
def ExecFn : Type := String → List (String × PyObj)

/-- `Test.load_fn` (src/tests.py lines 132-145) given the spec entry for
`fn_name` (`Option.none` when `fn_name not in self.spec`): absent blocks
yield no function; otherwise the block is executed and the binding of
`fn_name` fetched (`fn_ns.get`, so `None` when unbound).  When that binding
is not callable the code reaches
`raise ValueError(f"...\x7bfunc_name\x7d...")`, but `func_name` is an
unbound name (the parameter is `fn_name`), so evaluating the f-string
raises `NameError` for `func_name` before any `ValueError` is built. -/
def load_fn (ex : ExecFn) (block : Option String) (fn_name : String) :
    Except PyErr (Option PyObj) :=
  match block with
  | Option.none => Except.ok Option.none
  | some code =>
    let ns := ex code
    match List.lookup fn_name ns with
    | some fn =>
      if isCallable fn then Except.ok (some fn)
      else Except.error (PyErr.nameError "func_name")
    | Option.none => Except.error (PyErr.nameError "func_name")

/-! ## Test case construction -/

/-- One loaded specification document (the mapping produced by
`yaml.safe_load`; YAML parsing itself is a collaborator and out of scope).
Each field is `Option`-valued to model key presence/absence in the dict. -/
structure Doc where
  name : Option String
  description : Option String
  env : Option (List (String × JVal))
  tags : Option (List String)
  snippets : Option (List (String × String))
  params : Option (List (String × List JVal))
  parseBlock : Option String
  validateBlock : Option String
  command : Option (List String)

/-- A constructed `Test` object: the attributes `Test.__init__`
(src/tests.py lines 113-130) assigns.  `tasks` holds the return value of
`generate_tasks`. -/
structure Test where
  name : String
  desc : Option String
  env : List (String × JVal)
  tags : List String
  snippets : Option (List (String × String))
  parse : Option PyObj
  validate : Option PyObj
  extra_args : List (String × JVal)
  params : List (List (String × JVal))
  tasks : Option (List (List String))

/-- Python `dict.update` on an insertion-ordered association list: existing
keys are overwritten in place, new keys are appended. -/
def updateAssoc (base upd : List (String × JVal)) : List (String × JVal) :=
  upd.foldl
    (fun acc kv =>
      if (acc.map Prod.fst).contains kv.1 then
        acc.map (fun p => if p.1 = kv.1 then (p.1, kv.2) else p)
      else acc ++ [kv])
    base

/-- One iteration of the loop in `Test.generate_tasks` (src/tests.py lines
160-169): build `env_vars` (a local that the loop then discards), look up
`self.spec["command"]` (`KeyError` when absent — argument evaluation is
left to right, so this precedes `convert_snippets`), convert the snippets
(`convert_snippets(None)` iterates over `None` and raises `TypeError` when
the document had no `snippets` key), and render the command list against a
context holding only the converted snippet table.  The rendered list is
returned here so that theorems can observe it; the Python loop binds it to
a local `command` and drops it. -/
def generate_tasks_iter (env : List (String × JVal))
    (snippets : Option (List (String × String))) (command : Option (List String))
    (binding : List (String × JVal)) : Except PyErr (List String) :=
  let env_vars := updateAssoc env binding
  match command with
  | Option.none => Except.error (PyErr.keyError "command")
  | some cmd =>
    match snippets with
    | Option.none => Except.error (PyErr.typeError "NoneType object is not iterable")
    | some sn =>
      match convert_snippets sn with
      | Except.error e => Except.error e
      | Except.ok table =>
        match render_strings cmd (some (snippetCtx table)) with
        | Except.ok rendered =>
          let _ := env_vars
          Except.ok rendered
        | Except.error e => Except.error (PyErr.jinja e)

/-- `Test.generate_tasks` (src/tests.py lines 160-169): the body assigns
`self.tasks = []`, runs the loop over `self.params`, appends nothing, and
has no return statement — so it returns `None` (and `Test.__init__` then
overwrites `self.tasks` with that `None`). -/
def generate_tasks (env : List (String × JVal))
    (snippets : Option (List (String × String))) (command : Option (List String)) :
    List (List (String × JVal)) → Except PyErr (Option (List (List String)))
  | [] => Except.ok Option.none
  | binding :: rest =>
    match generate_tasks_iter env snippets command binding with
    | Except.ok _ => generate_tasks env snippets command rest
    | Except.error e => Except.error e

/-- `Test.__init__` (src/tests.py lines 113-130), in statement order:
`name` is a mandatory key (`KeyError`), the optional fields default via
`.get`, `parse` and `validate` compile through `load_fn`, `params` is the
full permutation list, and `tasks` receives the return value of
`generate_tasks`. -/
def mkTest (extra_args : List (String × JVal)) (ex : ExecFn) (doc : Doc) :
    Except PyErr Test :=
  match doc.name with
  | Option.none => Except.error (PyErr.keyError "name")
  | some name =>
    match load_fn ex doc.parseBlock "parse" with
    | Except.error e => Except.error e
    | Except.ok parse =>
      match load_fn ex doc.validateBlock "validate" with
      | Except.error e => Except.error e
      | Except.ok validate =>
        let params := param_permutations (doc.params.getD [])
        match generate_tasks (doc.env.getD []) doc.snippets doc.command params with
        | Except.error e => Except.error e
        | Except.ok tasks =>
          Except.ok
            (Test.mk name doc.description (doc.env.getD []) (doc.tags.getD [])
              doc.snippets parse validate extra_args params tasks)

/-- `Test.run` (src/tests.py lines 202-212): `for task in self.tasks`
raises `TypeError` when `tasks` is `None`; were it a list, the second loop
(`for params in self.params`) hits the unbound local `env_vars` and raises
`NameError` on its first iteration. -/
def Test.run (t : Test) : Except PyErr Unit :=
  match t.tasks with
  | Option.none => Except.error (PyErr.typeError "NoneType object is not iterable")
  | some _ =>
    match t.params with
    | [] => Except.ok ()
    | _ :: _ => Except.error (PyErr.nameError "env_vars")

/-- The tag filter condition in `TestSet.load_tests` (src/tests.py line
89): skip when `self.tag` is truthy (set and nonempty) and not among the
test's tags. -/
def tagSkip (tag : Option String) (tags : List String) : Bool :=
  match tag with
  | Option.none => false
  | some s => (decide (s ≠ "")) && !(tags.contains s)

/-- The loop of `TestSet.load_tests` (src/tests.py lines 81-100) over the
sorted document list (directory globbing is a collaborator; the documents
arrive as a list): each document is fully constructed into a `Test`
first, and only then the tag filter decides whether to keep it.  Any
construction error aborts the whole load. -/
def load_tests_go (tag : Option String) (extra_args : List (String × JVal)) (ex : ExecFn) :
    List Doc → List Test → Except PyErr (List Test)
  | [], acc => Except.ok acc
  | d :: ds, acc =>
    match mkTest extra_args ex d with
    | Except.error e => Except.error e
    | Except.ok t =>
      if tagSkip tag t.tags then load_tests_go tag extra_args ex ds acc
      else load_tests_go tag extra_args ex ds (acc ++ [t])

/-- `TestSet.load_tests` (src/tests.py lines 81-100): run the loop, then
`log.fatal("No tests loaded")` — which calls `sys.exit(1)` — when the
retained list is empty. -/
def load_tests (tag : Option String) (extra_args : List (String × JVal)) (ex : ExecFn)
    (docs : List Doc) : Except PyErr (List Test) :=
  match load_tests_go tag extra_args ex docs [] with
  | Except.error e => Except.error e
  | Except.ok tests =>
    if tests.length = 0 then Except.error (PyErr.systemExit 1)
    else Except.ok tests

/-- `TestSet.run` (src/tests.py lines 102-105): run every loaded test in
order; the first exception propagates. -/
def TestSet.run : List Test → Except PyErr Unit
  | [] => Except.ok ()
  | t :: ts =>
    match Test.run t with
    | Except.ok _ => TestSet.run ts
    | Except.error e => Except.error e

/-! ## Concrete inputs used by witnesses and counterexamples -/

/-- A concrete exec model: `parse = 5` binds `parse` to the non-callable
integer `5`; any block starting with `def ` binds the block name given
after it.  Used only to instantiate witnesses. -/
def exec0 : ExecFn := fun code =>
  if code = "parse = 5" then [("parse", PyObj.value (JVal.int 5))]
  else if code = "def parse(out, params): return" then [("parse", PyObj.callable "parse")]
  else []

/-- A minimal document: only the required `name` and `command` keys. -/
def docMinimal : Doc :=
  Doc.mk (some "t0") Option.none Option.none Option.none Option.none Option.none
    Option.none Option.none (some ["echo"])

/-- The minimal document with an (empty) `snippets` list added. -/
def docZero : Doc :=
  Doc.mk (some "t0") Option.none Option.none Option.none (some []) Option.none
    Option.none Option.none (some ["echo"])

/-- The `Test` object `docZero` constructs. -/
def testZero : Test :=
  Test.mk "t0" Option.none [] [] (some []) Option.none Option.none [] [[]] Option.none

/-- A document whose tags would exclude it from a tag-filtered run yet
whose construction raises (it omits `snippets`). -/
def docBadTagged : Doc :=
  Doc.mk (some "bad") Option.none Option.none (some ["x"]) Option.none Option.none
    Option.none Option.none (some ["echo"])

/-! ## Shape of parser output (used by the idempotence analysis) -/

/-- The invariant the template parser guarantees: node lists alternate
literal/variable, every literal is free of adjacent left-brace pairs, and a
literal followed by a variable cannot even end in a left brace (the lexer
would have found the opening pair one character earlier). -/
inductive GoodNodes : List Node → Prop where
  | lastLit (p : List Char) : hasBB p = false → GoodNodes [Node.lit p]
  | consVar (p : List Char) (path : List String) (rest : List Node) :
      hasBB (p ++ [lbraceCh]) = false → GoodNodes rest →
      GoodNodes (Node.lit p :: Node.var path :: rest)

/-- Does this variable reference evaluate, under `ctx`, to a defined value
whose printed form contains no left brace? -/
def varOK (ctx : List (String × JVal)) (path : List String) : Bool :=
  match evalPath ctx path with
  | Except.ok (JRes.val v) => !(decide (lbraceCh ∈ (pyStr v).data))
  | _ => false

/-- Per-node form of `varOK` (literals are always fine). -/
def nodeOK (ctx : List (String × JVal)) : Node → Bool
  | Node.var path => varOK ctx path
  | Node.lit _ => true

/-- A template string is fully resolved under `ctx` and its resolved values
print brace-free (templates outside the modelled fragment are vacuously
fine; they raise before the idempotence question arises). -/
def stringOK (ctx : List (String × JVal)) (s : String) : Bool :=
  match parseTemplate s.data with
  | some nodes => nodes.all (nodeOK ctx)
  | Option.none => true

/-! ## Lemmas about the parameter expander -/

theorem sum_map_const {α : Type} (l : List α) (c : Nat) :
    (l.map (fun _ => c)).sum = l.length * c := by
  induction l with
  | nil => simp
  | cons x xs ih => simp [ih, Nat.succ_mul, Nat.add_comm]

theorem product_length {α : Type} (ls : List (List α)) :
    (product ls).length = (ls.map List.length).prod := by
  induction ls with
  | nil => rfl
  | cons vs rest ih =>
    have h1 : (product (vs :: rest)).length =
        (vs.map (fun _ => (product rest).length)).sum := by
      have hfn : (List.length ∘ fun (x : α) => List.map (fun combo => x :: combo) (product rest))
          = fun _ => (product rest).length := by
        funext x
        simp [Function.comp]
      rw [product, List.length_flatMap, hfn]
    rw [h1, sum_map_const, ih]
    simp

theorem product_mem {α : Type} :
    ∀ (ls : List (List α)) (combo : List α), combo ∈ product ls →
      List.Forall₂ (fun (l : List α) (x : α) => x ∈ l) ls combo := by
  intro ls
  induction ls with
  | nil =>
    intro combo h
    simp only [product, List.mem_singleton] at h
    subst h
    exact List.Forall₂.nil
  | cons vs rest ih =>
    intro combo h
    simp only [product, List.mem_flatMap, List.mem_map] at h
    obtain ⟨x, hx, c2, hc2, rfl⟩ := h
    exact List.Forall₂.cons hx (ih c2 hc2)

theorem param_permutations_cons {α : Type} (n : String) (vs : List α)
    (rest : List (String × List α)) :
    param_permutations ((n, vs) :: rest) =
      vs.flatMap (fun v => (param_permutations rest).map (fun b => (n, v) :: b)) := by
  simp only [param_permutations, List.map_cons, product, List.map_flatMap]
  congr 1
  funext x
  simp [List.map_map, Function.comp, List.zip_cons_cons]

/-! ## Lemmas about the snippet table -/

theorem convertLoop_ok_of_nodup :
    ∀ (raw acc : List (String × String)),
      (acc.map Prod.fst ++ raw.map Prod.fst).Nodup →
      convertLoop acc raw = Except.ok (acc ++ raw) := by
  intro raw
  induction raw with
  | nil => intro acc _; simp [convertLoop]
  | cons entry rest ih =>
    intro acc h
    obtain ⟨name, content⟩ := entry
    have hnotmem : name ∉ acc.map Prod.fst := fun hmem =>
      (List.nodup_append.mp (by simpa using h)).2.2 hmem (by simp)
    rw [convertLoop, if_neg hnotmem]
    have h2 : ((acc ++ [(name, content)]).map Prod.fst ++ rest.map Prod.fst).Nodup := by
      simpa [List.append_assoc] using h
    simpa [List.append_assoc] using ih (acc ++ [(name, content)]) h2

theorem convertLoop_error_of_dup :
    ∀ (raw acc : List (String × String)),
      ¬ (acc.map Prod.fst ++ raw.map Prod.fst).Nodup →
      (acc.map Prod.fst).Nodup →
      ∃ n, n ∈ raw.map Prod.fst ∧
        convertLoop acc raw = Except.error (PyErr.valueError ("Duplicate snippet name: " ++ n)) := by
  intro raw
  induction raw with
  | nil => intro acc h hacc; simp at h; exact absurd hacc h
  | cons entry rest ih =>
    intro acc h hacc
    obtain ⟨name, content⟩ := entry
    by_cases hmem : name ∈ acc.map Prod.fst
    · refine ⟨name, by simp, ?_⟩
      rw [convertLoop, if_pos hmem]
    · rw [convertLoop, if_neg hmem]
      have hacc2 : ((acc ++ [(name, content)]).map Prod.fst).Nodup := by
        simp only [List.map_append, List.map_cons, List.map_nil]
        exact List.Nodup.append hacc (by simp) (by
          intro a ha hb
          simp at hb
          subst hb
          exact hmem ha)
      have h2 : ¬ ((acc ++ [(name, content)]).map Prod.fst ++ rest.map Prod.fst).Nodup := by
        intro hn
        exact h (by simpa [List.append_assoc] using hn)
      obtain ⟨n, hn, hrun⟩ := ih (acc ++ [(name, content)]) h2 hacc2
      exact ⟨n, by simp [hn], hrun⟩

/-! ## Claim theorems -/

/-- C2: for every parameter map with axes of sizes `n1..nk`,
`param_permutations` produces exactly `n1*...*nk` bindings, each of which
pairs every declared parameter name (in declaration order) with one of its
candidate values; zero declared parameters produce exactly the single empty
binding. -/
theorem param_permutations_counts_and_covers {α : Type} (params : List (String × List α)) :
    (param_permutations params).length = (params.map (fun p => p.2.length)).prod ∧
    (∀ b ∈ param_permutations params,
      List.Forall₂ (fun (p : String × List α) (q : String × α) => q.1 = p.1 ∧ q.2 ∈ p.2)
        params b) ∧
    param_permutations ([] : List (String × List α)) = [[]] := by
  refine ⟨?_, ?_, rfl⟩
  · simpa [param_permutations, Function.comp] using product_length (params.map Prod.snd)
  · have key : ∀ (ps : List (String × List α)) (combo : List α),
        List.Forall₂ (fun (l : List α) (x : α) => x ∈ l) (ps.map Prod.snd) combo →
        List.Forall₂ (fun (p : String × List α) (q : String × α) => q.1 = p.1 ∧ q.2 ∈ p.2)
          ps (List.zip (ps.map Prod.fst) combo) := by
      intro ps
      induction ps with
      | nil =>
        intro combo hf
        cases hf
        exact List.Forall₂.nil
      | cons p rest ih =>
        intro combo hf
        obtain ⟨nm, vals⟩ := p
        rw [List.map_cons] at hf
        cases hf with
        | cons hx hrest =>
          rename_i x c2
          rw [List.map_cons, List.zip_cons_cons]
          exact List.Forall₂.cons ⟨rfl, hx⟩ (ih c2 hrest)
    intro b hb
    simp only [param_permutations, List.mem_map] at hb
    obtain ⟨combo, hcombo, rfl⟩ := hb
    exact key params combo (product_mem (params.map Prod.snd) combo hcombo)

/-- Witness for C2 at a concrete one-axis parameter map. -/
theorem param_permutations_counts_and_covers_witness :
    (param_permutations [("k", ["a", "b"])]).length = 2 ∧
    List.Forall₂ (fun (p : String × List String) (q : String × String) => q.1 = p.1 ∧ q.2 ∈ p.2)
      [("k", ["a", "b"])] [("k", "a")] :=
  ⟨by simpa using (param_permutations_counts_and_covers [("k", ["a", "b"])]).1,
   (param_permutations_counts_and_covers [("k", ["a", "b"])]).2.1 [("k", "a")] (by decide)⟩

/-- C3: the binding enumeration order is fixed by the declaration order of
the parameter names — the first declared axis is the outermost loop, so
later-declared axes vary fastest — and the document
`params: (size: [1,2], mode: [a,b])` yields exactly the four bindings
`(1,a),(1,b),(2,a),(2,b)` in that order. -/
theorem param_permutations_ordered {α : Type} (n : String) (vs : List α)
    (rest : List (String × List α)) :
    param_permutations ((n, vs) :: rest) =
      vs.flatMap (fun v => (param_permutations rest).map (fun b => (n, v) :: b)) ∧
    param_permutations
        [("size", [JVal.int 1, JVal.int 2]), ("mode", [JVal.str "a", JVal.str "b"])] =
      [[("size", JVal.int 1), ("mode", JVal.str "a")],
       [("size", JVal.int 1), ("mode", JVal.str "b")],
       [("size", JVal.int 2), ("mode", JVal.str "a")],
       [("size", JVal.int 2), ("mode", JVal.str "b")]] :=
  ⟨param_permutations_cons n vs rest, rfl⟩

/-- Witness for C3 at a concrete one-axis parameter map. -/
theorem param_permutations_ordered_witness :
    param_permutations [("k", [1, 2])] =
      [1, 2].flatMap
        (fun v => (param_permutations ([] : List (String × List Nat))).map
          (fun b => ("k", v) :: b)) :=
  (param_permutations_ordered "k" [1, 2] []).1

/-- C7: `convert_snippets` succeeds exactly on duplicate-free name lists —
any duplicate, wherever it occurs, raises the duplicate-name `ValueError`
(the spec's `DuplicateSnippetError`) — and on success it returns the
name-to-content mapping under the single reserved key `snippet`. -/
theorem convert_snippets_dup_check (raw : List (String × String)) :
    ((raw.map Prod.fst).Nodup → convert_snippets raw = Except.ok [("snippet", raw)]) ∧
    (¬ (raw.map Prod.fst).Nodup →
      ∃ n, n ∈ raw.map Prod.fst ∧
        convert_snippets raw =
          Except.error (PyErr.valueError ("Duplicate snippet name: " ++ n))) := by
  constructor
  · intro h
    have := convertLoop_ok_of_nodup raw [] (by simpa using h)
    simp [convert_snippets, this]
  · intro h
    obtain ⟨n, hn, hrun⟩ := convertLoop_error_of_dup raw [] (by simpa using h) (by simp)
    exact ⟨n, hn, by simp [convert_snippets, hrun]⟩

/-- Witness for C7: a duplicate-free list builds the table, a list with a
repeated name raises. -/
theorem convert_snippets_dup_check_witness :
    convert_snippets [("a", "x"), ("b", "y")] =
      Except.ok [("snippet", [("a", "x"), ("b", "y")])] ∧
    ∃ n, n ∈ ["a", "a"] ∧
      convert_snippets [("a", "x"), ("a", "y")] =
        Except.error (PyErr.valueError ("Duplicate snippet name: " ++ n)) :=
  ⟨(convert_snippets_dup_check [("a", "x"), ("b", "y")]).1 (by decide),
   by simpa using (convert_snippets_dup_check [("a", "x"), ("a", "y")]).2 (by decide)⟩

/-- C4 (counter-evidence): the code does not round-trip unresolved
references.  Rendering the template text with double-braced `a.b` against a
context missing `a` raises `UndefinedError` (the base `Undefined` raises on
attribute access); with `a` bound to the string `hello` and `b` missing it
yields the text with double-braced `hello.b` — the string form of `a`'s
value, not the name `a`; and a missing top-level name renders with the
`missing.` sentinel prefix rather than verbatim. -/
theorem unresolved_reference_not_preserved :
    render_strings ["\x7b\x7b a.b \x7d\x7d"] (some []) =
      Except.error (JErr.undefinedError "a") ∧
    render_strings ["\x7b\x7b a.b \x7d\x7d"] (some [("a", JVal.str "hello")]) =
      Except.ok ["\x7b\x7b hello.b \x7d\x7d"] ∧
    render_strings ["\x7b\x7b a \x7d\x7d"] (some []) =
      Except.ok ["\x7b\x7b missing.a \x7d\x7d"] :=
  ⟨rfl, rfl, rfl⟩

/-- C5 (counter-evidence): inside `generate_tasks` the command template is
rendered against the converted snippet table only.  A command element that
references the current binding's parameter `x` stays unresolved (rendering
to the `missing.x` placeholder) even though the binding assigns `x`,
whereas rendering the same element against a context that does contain the
binding resolves it to `1`. -/
theorem command_rendered_without_binding_or_extra_args :
    generate_tasks_iter [] (some []) (some ["\x7b\x7b x \x7d\x7d"]) [("x", JVal.int 1)] =
      Except.ok ["\x7b\x7b missing.x \x7d\x7d"] ∧
    render_strings ["\x7b\x7b x \x7d\x7d"]
      (some [("extra_args", JVal.dict []), ("snippet", JVal.dict []), ("x", JVal.int 1)]) =
      Except.ok ["1"] :=
  ⟨rfl, rfl⟩

/-- C6 (counter-evidence): a document carrying only the required `name` and
`command` keys does not load — `Test.__init__` reaches
`convert_snippets(None)` and raises `TypeError` — while the same document
with an explicit (empty) `snippets` list constructs fine, isolating the
omitted optional field as the cause. -/
theorem minimal_doc_load_raises :
    mkTest [] exec0 docMinimal =
      Except.error (PyErr.typeError "NoneType object is not iterable") ∧
    mkTest [] exec0 docZero = Except.ok testZero :=
  ⟨rfl, rfl⟩

/-- C8 (counter-evidence): when a `parse` block binds `parse` to a
non-callable, `load_fn` raises `NameError` for the unbound `func_name` used
inside the error f-string — not an error naming the expected function.  An
absent block returns no function without error, and a block defining a
callable is returned. -/
theorem load_fn_raises_wrong_error :
    load_fn exec0 (some "parse = 5") "parse" = Except.error (PyErr.nameError "func_name") ∧
    load_fn exec0 Option.none "parse" = Except.ok Option.none ∧
    load_fn exec0 (some "def parse(out, params): return") "parse" =
      Except.ok (some (PyObj.callable "parse")) :=
  ⟨rfl, rfl, rfl⟩

/-! ## Lemmas about `Test` construction and the suite loop -/

theorem generate_tasks_ok_none (env : List (String × JVal))
    (sn : Option (List (String × String))) (cmd : Option (List String)) :
    ∀ (ps : List (List (String × JVal))) (v : Option (List (List String))),
      generate_tasks env sn cmd ps = Except.ok v → v = Option.none := by
  intro ps
  induction ps with
  | nil =>
    intro v h
    rw [generate_tasks] at h
    injection h with h
    exact h.symm
  | cons b rest ih =>
    intro v h
    rw [generate_tasks] at h
    cases hi : generate_tasks_iter env sn cmd b with
    | error e => rw [hi] at h; exact absurd h (by simp)
    | ok r => rw [hi] at h; exact ih v h

theorem mkTest_tasks_none (ea : List (String × JVal)) (ex : ExecFn) (doc : Doc) (t : Test)
    (h : mkTest ea ex doc = Except.ok t) : t.tasks = Option.none := by
  unfold mkTest at h
  cases hn : doc.name with
  | none => simp [hn] at h
  | some name =>
    simp only [hn] at h
    cases hp : load_fn ex doc.parseBlock "parse" with
    | error e => simp [hp] at h
    | ok parse =>
      simp only [hp] at h
      cases hv : load_fn ex doc.validateBlock "validate" with
      | error e => simp [hv] at h
      | ok validate =>
        simp only [hv] at h
        cases hg : generate_tasks (doc.env.getD []) doc.snippets doc.command
            (param_permutations (doc.params.getD [])) with
        | error e => simp [hg] at h
        | ok tasks =>
          simp only [hg] at h
          injection h with h
          subst h
          exact generate_tasks_ok_none _ _ _ _ tasks hg

theorem load_tests_go_mem (tag : Option String) (ea : List (String × JVal)) (ex : ExecFn) :
    ∀ (docs : List Doc) (acc tests : List Test),
      load_tests_go tag ea ex docs acc = Except.ok tests →
      ∀ t ∈ tests, t ∈ acc ∨ ∃ d, mkTest ea ex d = Except.ok t := by
  intro docs
  induction docs with
  | nil =>
    intro acc tests h t ht
    rw [load_tests_go] at h
    injection h with h
    subst h
    exact Or.inl ht
  | cons d ds ih =>
    intro acc tests h t ht
    rw [load_tests_go] at h
    cases hm : mkTest ea ex d with
    | error e => rw [hm] at h; exact absurd h (by simp)
    | ok t2 =>
      rw [hm] at h
      cases hs : tagSkip tag t2.tags with
      | true =>
        simp only [hs, if_true] at h
        exact ih acc tests h t ht
      | false =>
        simp only [hs, Bool.false_eq_true, if_false] at h
        rcases ih (acc ++ [t2]) tests h t ht with hin | hex
        · rcases List.mem_append.mp hin with h1 | h2
          · exact Or.inl h1
          · simp only [List.mem_singleton] at h2
            subst h2
            exact Or.inr ⟨d, hm⟩
        · exact Or.inr hex

/-- C1: every successfully constructed `Test` has `tasks = None` (the
return value of `generate_tasks`), so `Test.run` raises `TypeError` when
it iterates over `tasks`, and consequently `TestSet.run` on any loaded
suite raises that `TypeError` and never executes a task. -/
theorem constructed_test_never_runs (ea : List (String × JVal)) (ex : ExecFn) :
    (∀ doc t, mkTest ea ex doc = Except.ok t →
      t.tasks = Option.none ∧
      Test.run t = Except.error (PyErr.typeError "NoneType object is not iterable")) ∧
    (∀ tag docs tests, load_tests tag ea ex docs = Except.ok tests →
      TestSet.run tests = Except.error (PyErr.typeError "NoneType object is not iterable")) := by
  constructor
  · intro doc t h
    have ht := mkTest_tasks_none ea ex doc t h
    refine ⟨ht, ?_⟩
    rw [Test.run, ht]
  · intro tag docs tests h
    unfold load_tests at h
    cases hg : load_tests_go tag ea ex docs [] with
    | error e => simp [hg] at h
    | ok ts =>
      simp only [hg] at h
      by_cases hz : ts.length = 0
      · rw [if_pos hz] at h; exact absurd h (by simp)
      · rw [if_neg hz] at h
        injection h with h
        subst h
        cases ts with
        | nil => simp at hz
        | cons t rest =>
          rcases load_tests_go_mem tag ea ex docs [] (t :: rest) hg t (by simp) with hin | hex
          · simp at hin
          · obtain ⟨d, hd⟩ := hex
            have htasks := mkTest_tasks_none ea ex d t hd
            rw [TestSet.run, Test.run, htasks]

/-- Witness for C1 at the concrete minimal document with empty snippets. -/
theorem constructed_test_never_runs_witness :
    testZero.tasks = Option.none ∧
    Test.run testZero = Except.error (PyErr.typeError "NoneType object is not iterable") ∧
    TestSet.run [testZero] = Except.error (PyErr.typeError "NoneType object is not iterable") :=
  ⟨((constructed_test_never_runs [] exec0).1 docZero testZero rfl).1,
   ((constructed_test_never_runs [] exec0).1 docZero testZero rfl).2,
   (constructed_test_never_runs [] exec0).2 Option.none [docZero] [testZero] rfl⟩

/-- C10: `load_tests` fully constructs the `Test` for every document
before consulting the tag filter, so a construction error in a document
whose tags would exclude it from the run still aborts the whole load. -/
theorem tag_excluded_doc_still_aborts (tag : String) (ea : List (String × JVal)) (ex : ExecFn)
    (pre post : List Doc) (d : Doc) (e : PyErr)
    (hpre : ∀ p ∈ pre, ∃ t, mkTest ea ex p = Except.ok t)
    (hskip : tagSkip (some tag) (d.tags.getD []) = true)
    (hd : mkTest ea ex d = Except.error e) :
    load_tests (some tag) ea ex (pre ++ d :: post) = Except.error e := by
  have hgo : ∀ (ps : List Doc) (acc : List Test),
      (∀ p ∈ ps, ∃ t, mkTest ea ex p = Except.ok t) →
      load_tests_go (some tag) ea ex (ps ++ d :: post) acc = Except.error e := by
    intro ps
    induction ps with
    | nil =>
      intro acc _
      rw [List.nil_append, load_tests_go, hd]
    | cons p ps2 ih =>
      intro acc hall
      obtain ⟨t, ht⟩ := hall p (by simp)
      rw [List.cons_append, load_tests_go, ht]
      cases hs : tagSkip (some tag) t.tags with
      | true =>
        simp only [hs, if_true]
        exact ih acc (fun q hq => hall q (by simp [hq]))
      | false =>
        simp only [hs, Bool.false_eq_true, if_false]
        exact ih (acc ++ [t]) (fun q hq => hall q (by simp [hq]))
  have _ := hskip
  rw [load_tests, hgo pre [] hpre]

/-- Witness for C10: the broken document `docBadTagged` is excluded by tag
`y`, yet loading the directory aborts with its construction error. -/
theorem tag_excluded_doc_still_aborts_witness :
    load_tests (some "y") [] exec0 [docBadTagged, docZero] =
      Except.error (PyErr.typeError "NoneType object is not iterable") :=
  tag_excluded_doc_still_aborts "y" [] exec0 [] [docZero] docBadTagged
    (PyErr.typeError "NoneType object is not iterable") (by simp) rfl rfl

/-! ## Brace-scanning lemmas for the idempotence analysis -/

theorem hasBB_cons_cons (c d : Char) (rest : List Char) :
    hasBB (c :: d :: rest) = ((c = lbraceCh && d = lbraceCh) || hasBB (d :: rest)) := rfl

theorem splitBB_eq_self : ∀ (cs : List Char), hasBB cs = false → splitBB cs = (cs, Option.none)
  | [], _ => rfl
  | [_], _ => rfl
  | c :: d :: rest, h => by
    rw [hasBB_cons_cons, Bool.or_eq_false_iff] at h
    have hcd : ¬ (c = lbraceCh ∧ d = lbraceCh) := by
      intro hand
      rw [hand.1, hand.2] at h
      simp at h
    rw [splitBB, if_neg hcd, splitBB_eq_self (d :: rest) h.2]

theorem splitBB_nil_some : ∀ (cs rest : List Char), splitBB cs = ([], some rest) →
    cs = lbraceCh :: lbraceCh :: rest
  | [], _, h => by simp [splitBB] at h
  | [c], _, h => by simp [splitBB] at h
  | c :: d :: cs2, rest, h => by
    by_cases hcd : c = lbraceCh ∧ d = lbraceCh
    · rw [splitBB, if_pos hcd] at h
      injection h with h1 h2
      injection h2 with h2
      rw [hcd.1, hcd.2, h2]
    · rw [splitBB, if_neg hcd] at h
      injection h with h1 h2
      simp at h1

theorem splitBB_cons_shape : ∀ (x : Char) (xs p : List Char) (r : Option (List Char)),
    splitBB (x :: xs) = (p, r) → p = [] ∨ ∃ q, p = x :: q
  | x, [], p, r, h => by
    rw [splitBB] at h
    injection h with h1 _
    exact Or.inr ⟨[], h1.symm⟩
  | x, y :: ys, p, r, h => by
    by_cases hcd : x = lbraceCh ∧ y = lbraceCh
    · rw [splitBB, if_pos hcd] at h
      injection h with h1 _
      exact Or.inl h1.symm
    · rw [splitBB, if_neg hcd] at h
      injection h with h1 _
      exact Or.inr ⟨(splitBB (y :: ys)).1, h1.symm⟩

theorem splitBB_some_nobb : ∀ (cs p rest : List Char), splitBB cs = (p, some rest) →
    hasBB (p ++ [lbraceCh]) = false
  | [], _, _, h => by simp [splitBB] at h
  | [c], _, _, h => by simp [splitBB] at h
  | c :: d :: cs2, p, rest, h => by
    by_cases hcd : c = lbraceCh ∧ d = lbraceCh
    · rw [splitBB, if_pos hcd] at h
      injection h with h1 _
      rw [← h1]
      simp [hasBB]
    · rw [splitBB, if_neg hcd] at h
      injection h with h1 h2
      cases hsp : splitBB (d :: cs2) with
      | mk p2 r2 =>
        rw [hsp] at h1 h2
        subst h2
        have ihp : hasBB (p2 ++ [lbraceCh]) = false :=
          splitBB_some_nobb (d :: cs2) p2 rest hsp
        rw [← h1]
        cases p2 with
        | nil =>
          have hd : d = lbraceCh := by
            have h4 := splitBB_nil_some (d :: cs2) rest hsp
            simp at h4
            exact h4.1
          have hc : ¬ c = lbraceCh := fun e => hcd ⟨e, hd⟩
          simp [hasBB, hc]
        | cons e p2tail =>
          have he : e = d := by
            rcases splitBB_cons_shape d cs2 (e :: p2tail) (some rest) hsp with h3 | ⟨q, h3⟩
            · simp at h3
            · simp at h3
              exact h3.1
          have hand : ¬ (c = lbraceCh ∧ e = lbraceCh) := fun hx => hcd ⟨hx.1, he ▸ hx.2⟩
          rw [List.cons_append, List.cons_append, hasBB_cons_cons, Bool.or_eq_false_iff]
          constructor
          · by_cases h1c : c = lbraceCh
            · have h2e : ¬ e = lbraceCh := fun e2 => hand ⟨h1c, e2⟩
              simp [h2e]
            · simp [h1c]
          · have := ihp
            rw [List.cons_append] at this
            exact this

theorem splitBB_none_nobb : ∀ (cs p : List Char), splitBB cs = (p, Option.none) →
    hasBB p = false
  | [], p, h => by
    injection h with h1 _
    rw [← h1]
    rfl
  | [c], p, h => by
    injection h with h1 _
    rw [← h1]
    rfl
  | c :: d :: cs2, p, h => by
    by_cases hcd : c = lbraceCh ∧ d = lbraceCh
    · rw [splitBB, if_pos hcd] at h
      injection h with _ h2
      simp at h2
    · rw [splitBB, if_neg hcd] at h
      injection h with h1 h2
      cases hsp : splitBB (d :: cs2) with
      | mk p2 r2 =>
        rw [hsp] at h1 h2
        subst h2
        have ihp : hasBB p2 = false := splitBB_none_nobb (d :: cs2) p2 hsp
        rw [← h1]
        cases p2 with
        | nil => rfl
        | cons e p2tail =>
          have he : e = d := by
            rcases splitBB_cons_shape d cs2 (e :: p2tail) Option.none hsp with h3 | ⟨q, h3⟩
            · simp at h3
            · simp at h3
              exact h3.1
          have hand : ¬ (c = lbraceCh ∧ e = lbraceCh) := fun hx => hcd ⟨hx.1, he ▸ hx.2⟩
          rw [hasBB_cons_cons, Bool.or_eq_false_iff]
          refine ⟨?_, ihp⟩
          by_cases h1c : c = lbraceCh
          · have h2e : ¬ e = lbraceCh := fun e2 => hand ⟨h1c, e2⟩
            simp [h2e]
          · simp [h1c]

theorem hasBB_of_not_mem : ∀ (a : List Char), lbraceCh ∉ a → hasBB a = false
  | [], _ => rfl
  | [_], _ => rfl
  | c :: d :: rest, h => by
    have hc : ¬ c = lbraceCh := fun e => h (by simp [e])
    have htail : lbraceCh ∉ d :: rest := fun m => h (List.mem_cons_of_mem c m)
    rw [hasBB_cons_cons, Bool.or_eq_false_iff]
    exact ⟨by simp [hc], hasBB_of_not_mem (d :: rest) htail⟩

theorem hasBB_append_lb : ∀ (a : List Char), lbraceCh ∉ a →
    hasBB (a ++ [lbraceCh]) = false
  | [], _ => rfl
  | c :: rest, h => by
    have hc : ¬ c = lbraceCh := fun e => h (by simp [e])
    have htail : lbraceCh ∉ rest := fun m => h (List.mem_cons_of_mem c m)
    cases rest with
    | nil => simp [hasBB, hc]
    | cons d rest2 =>
      rw [List.cons_append, List.cons_append, hasBB_cons_cons, Bool.or_eq_false_iff]
      refine ⟨by simp [hc], ?_⟩
      have := hasBB_append_lb (d :: rest2) htail
      rw [List.cons_append] at this
      exact this

theorem hasBB_append_left : ∀ (a b : List Char), hasBB (a ++ b) = false → hasBB a = false
  | [], _, _ => rfl
  | [_], _, _ => rfl
  | c :: d :: rest, b, h => by
    rw [List.cons_append, List.cons_append, hasBB_cons_cons, Bool.or_eq_false_iff] at h
    rw [hasBB_cons_cons, Bool.or_eq_false_iff]
    refine ⟨h.1, ?_⟩
    have := hasBB_append_left (d :: rest) b (by rw [List.cons_append]; exact h.2)
    exact this

theorem hasBB_append_ok : ∀ (a b : List Char), hasBB a = false → hasBB b = false →
    (hasBB (a ++ [lbraceCh]) = false ∨ b.head? ≠ some lbraceCh) →
    hasBB (a ++ b) = false
  | [], b, _, hb, _ => hb
  | [c], b, ha, hb, hj => by
    cases b with
    | nil => exact ha
    | cons x xs =>
      have hx : ¬ (c = lbraceCh ∧ x = lbraceCh) := by
        rcases hj with hl | hr
        · intro hand
          rw [hand.1] at hl
          simp [hasBB] at hl
        · intro hand
          exact hr (by simp [hand.2])
      rw [List.singleton_append, hasBB_cons_cons, Bool.or_eq_false_iff]
      refine ⟨?_, hb⟩
      by_cases h1c : c = lbraceCh
      · have h2x : ¬ x = lbraceCh := fun e2 => hx ⟨h1c, e2⟩
        simp [h2x]
      · simp [h1c]
  | c :: d :: rest, b, ha, hb, hj => by
    rw [hasBB_cons_cons, Bool.or_eq_false_iff] at ha
    rw [List.cons_append, List.cons_append, hasBB_cons_cons, Bool.or_eq_false_iff]
    refine ⟨ha.1, ?_⟩
    have hj2 : hasBB ((d :: rest) ++ [lbraceCh]) = false ∨ b.head? ≠ some lbraceCh := by
      rcases hj with hl | hr
      · rw [List.cons_append, List.cons_append, hasBB_cons_cons, Bool.or_eq_false_iff] at hl
        exact Or.inl (by rw [List.cons_append]; exact hl.2)
      · exact Or.inr hr
    have := hasBB_append_ok (d :: rest) b ha.2 hb hj2
    rw [List.cons_append] at this
    exact this

/-! ## Parser output shape and rendering stability -/

theorem parseTemplateF_good :
    ∀ (fuel : Nat) (cs : List Char) (nodes : List Node),
      parseTemplateF fuel cs = some nodes → GoodNodes nodes := by
  intro fuel
  induction fuel with
  | zero =>
    intro cs nodes h
    simp [parseTemplateF] at h
  | succ fuel ih =>
    intro cs nodes h
    rw [parseTemplateF] at h
    cases hs : splitBB cs with
    | mk p r =>
      rw [hs] at h
      cases r with
      | none =>
        simp only [] at h
        injection h with h
        rw [← h]
        exact GoodNodes.lastLit p (splitBB_none_nobb cs p hs)
      | some rest =>
        simp only [] at h
        cases hv : parseVarClose rest with
        | none => rw [hv] at h; exact absurd h (by simp)
        | some pr =>
          obtain ⟨path, rest2⟩ := pr
          simp only [hv] at h
          cases hpf : parseTemplateF fuel rest2 with
          | none => simp only [hpf] at h; exact absurd h (by simp)
          | some nodes2 =>
            simp only [hpf] at h
            injection h with h
            rw [← h]
            exact GoodNodes.consVar p path nodes2 (splitBB_some_nobb cs p rest hs)
              (ih rest2 nodes2 hpf)

theorem renderNodes_ok_nobb (ctx : List (String × JVal)) :
    ∀ (nodes : List Node), GoodNodes nodes → nodes.all (nodeOK ctx) = true →
    ∀ (out : List Char), renderNodes ctx nodes = Except.ok out → hasBB out = false := by
  intro nodes hgood
  induction hgood with
  | lastLit p hp =>
    intro _ out hout
    simp only [renderNodes] at hout
    injection hout with hout
    rw [← hout, List.append_nil]
    exact hp
  | consVar p path rest hpl hrest ih =>
    intro hall out hout
    simp only [List.all_cons, nodeOK, Bool.true_and, Bool.and_eq_true] at hall
    obtain ⟨hvar, hall2⟩ := hall
    cases he : evalPath ctx path with
    | error e => simp [varOK, he] at hvar
    | ok r =>
      cases r with
      | undef o n => simp [varOK, he] at hvar
      | val v =>
        have hnomem : lbraceCh ∉ (pyStr v).data := by
          simp [varOK, he] at hvar
          exact hvar
        simp only [renderNodes, he] at hout
        cases hr : renderNodes ctx rest with
        | error e => rw [hr] at hout; exact absurd hout (by simp)
        | ok out2 =>
          rw [hr] at hout
          injection hout with hout
          rw [← hout]
          have h2 : hasBB out2 = false := ih hall2 out2 hr
          have hv1 : hasBB (pyStr v).data = false := hasBB_of_not_mem _ hnomem
          have hv2 : hasBB ((pyStr v).data ++ [lbraceCh]) = false :=
            hasBB_append_lb _ hnomem
          have hmid : hasBB ((renderRes (JRes.val v)).data ++ out2) = false :=
            hasBB_append_ok _ _ hv1 h2 (Or.inl hv2)
          have hpfx : hasBB p = false := hasBB_append_left p [lbraceCh] hpl
          exact hasBB_append_ok p _ hpfx hmid (Or.inl hpl)

theorem parseTemplate_of_nobb (cs : List Char) (h : hasBB cs = false) :
    parseTemplate cs = some [Node.lit cs] := by
  rw [parseTemplate, parseTemplateF, splitBB_eq_self cs h]

theorem renderString_of_nobb :
    ∀ (s : String) (ctx : List (String × JVal)), hasBB s.data = false →
      renderString s ctx = Except.ok s
  | String.mk data, ctx, h => by
    rw [renderString]
    have hp : parseTemplate (String.mk data).data = some [Node.lit data] :=
      parseTemplate_of_nobb data h
    rw [hp]
    simp [renderNodes]

theorem renderString_again (s res : String) (ctx : List (String × JVal))
    (h : renderString s ctx = Except.ok res) (hok : stringOK ctx s = true) :
    renderString res ctx = Except.ok res := by
  rw [renderString] at h
  cases hp : parseTemplate s.data with
  | none => simp only [hp] at h; exact absurd h (by simp)
  | some nodes =>
    simp only [hp] at h
    cases hr : renderNodes ctx nodes with
    | error e => simp only [hr] at h; exact absurd h (by simp)
    | ok out =>
      simp only [hr] at h
      injection h with h
      have hgood : GoodNodes nodes := parseTemplateF_good (s.data.length + 1) s.data nodes hp
      have hall : nodes.all (nodeOK ctx) = true := by
        have h2 := hok
        rw [stringOK, hp] at h2
        exact h2
      have hnobb : hasBB out = false := renderNodes_ok_nobb ctx nodes hgood hall out hr
      rw [← h]
      exact renderString_of_nobb (String.mk out) ctx hnobb

theorem render_list_again (ctx : List (String × JVal)) :
    ∀ (ss out : List String), render_list ctx ss = Except.ok out →
      (∀ s ∈ ss, stringOK ctx s = true) →
      render_list ctx out = Except.ok out := by
  intro ss
  induction ss with
  | nil =>
    intro out h _
    rw [render_list] at h
    injection h with h
    rw [← h]
    rfl
  | cons s rest ih =>
    intro out h hok
    rw [render_list] at h
    cases hr : renderString s ctx with
    | error e => simp only [hr] at h; exact absurd h (by simp)
    | ok r =>
      simp only [hr] at h
      cases hl : render_list ctx rest with
      | error e => simp only [hl] at h; exact absurd h (by simp)
      | ok rs =>
        simp only [hl] at h
        injection h with h
        rw [← h, render_list,
          renderString_again s r ctx hr (hok s (by simp)),
          ih rs hl (fun q hq => hok q (by simp [hq]))]

/-- C9: rendering is deterministic — the same list and context give the
same result both times — the no-context path returns the inputs unchanged,
and re-rendering the rendered output with the same context yields it
unchanged provided every variable reference resolves to a defined value
whose string form is brace-free (`stringOK`). -/
theorem render_strings_idempotent (ss out : List String) (ctx : List (String × JVal))
    (hren : render_strings ss (some ctx) = Except.ok out)
    (hok : ∀ s ∈ ss, stringOK ctx s = true) :
    render_strings ss (some ctx) = Except.ok out ∧
    render_strings out (some ctx) = Except.ok out ∧
    ∀ ts : List String, render_strings ts Option.none = Except.ok ts :=
  ⟨hren, render_list_again ctx ss out hren hok, fun _ => rfl⟩

/-- Witness for C9 at a concrete fully-resolved rendering. -/
theorem render_strings_idempotent_witness :
    render_strings ["\x7b\x7b a \x7d\x7d end"] (some [("a", JVal.str "x")]) =
      Except.ok ["x end"] ∧
    render_strings ["x end"] (some [("a", JVal.str "x")]) = Except.ok ["x end"] ∧
    render_strings ["q"] Option.none = Except.ok ["q"] :=
  ⟨(render_strings_idempotent ["\x7b\x7b a \x7d\x7d end"] ["x end"] [("a", JVal.str "x")]
      rfl (by decide)).1,
   (render_strings_idempotent ["\x7b\x7b a \x7d\x7d end"] ["x end"] [("a", JVal.str "x")]
      rfl (by decide)).2.1,
   (render_strings_idempotent ["\x7b\x7b a \x7d\x7d end"] ["x end"] [("a", JVal.str "x")]
      rfl (by decide)).2.2 ["q"]⟩

/-- C9 counterexample: the context resolves every reference of the input
(`a` and even `b` are both bound), yet re-rendering the rendered output
changes it — the value of `a` itself contains template syntax, which the
second pass expands. -/
theorem render_strings_not_idempotent :
    render_strings ["\x7b\x7b a \x7d\x7d"]
      (some [("a", JVal.str "\x7b\x7b b \x7d\x7d"), ("b", JVal.str "x")]) =
      Except.ok ["\x7b\x7b b \x7d\x7d"] ∧
    render_strings ["\x7b\x7b b \x7d\x7d"]
      (some [("a", JVal.str "\x7b\x7b b \x7d\x7d"), ("b", JVal.str "x")]) =
      Except.ok ["x"] :=
  ⟨rfl, rfl⟩

end Unframe
